import Mathlib

/-!
Verification of the evogil selection machinery against its design description.

The development below is a shallow embedding of the two selector engines of the
repository:

* `src/algorithms/IBEA/IBEA.py` (indicator-based environmental selection), and
* `src/ep/smsemoa/smsemoa.py` (hypervolume steady-state reduction).

Real arithmetic performed by the Python code with floats is modelled exactly
over the rationals.  Two primitives of the code are external to the two files
above and are treated as parameters of the embedding:

* the transcendental `math.exp` appears only as an uninterpreted function
  argument `expf : Rat -> Rat` (a concrete strictly monotone positive rational
  stand-in `expQ` is supplied for evaluation on concrete inputs);
* the hypervolume primitive `HyperVolume(ref).compute` of `ep/smsemoa/hv.py`
  appears as an uninterpreted argument `hv : List (List Rat) -> Rat`.

Python operations that raise on degenerate inputs (`max`/`min` of an empty
sequence, `random.sample(pop, 2)` from fewer than two members, comparison of
`(Individual, float)` tuples) are modelled with `Option`, `none` standing for
the raised exception.
-/

/-- Python `sys.float_info.epsilon` is the binary64 machine epsilon, exactly
the rational 2 to the power -52.  Both engines use it as an additive floor. -/
def floatEpsilon : ℚ := 1 / 2 ^ 52

/-- A concrete strictly monotone, strictly positive rational function used as
an executable stand-in for the external float primitive `math.exp` when a
concrete input has to be evaluated.  Nothing below depends on any analytic
property of `math.exp`; theorems quantify over the function `expf` wherever
possible. -/
def expQ (q : ℚ) : ℚ := if q < 0 then 1 / (1 - q) else 1 + q

/-- An objective function, as configured for the IBEA driver: a map from a
solution vector to a real (here: rational) value to be minimised. -/
abbrev Objective := List ℚ → ℚ

namespace IBEA

/-- `IBEA.Individual` of `src/algorithms/IBEA/IBEA.py`: a wrapped solution
vector `v` plus the lazy-evaluation flag `known_objectives`.  Python compares
individuals by object identity; the `tag` field models that identity, so two
distinct objects with equal vectors stay distinguishable. -/
structure Ind where
  tag : ℕ
  v : List ℚ
  known_objectives : Bool
deriving DecidableEq

/-- `IBEA._scale(fun, min_o, max_o)`: the normalising closure
`(fun(x) - min_o) / (max_o - min_o + sys.float_info.epsilon)`. -/
def scaleFun (f : Objective) (min_o max_o : ℚ) : Objective :=
  fun x => (f x - min_o) / (max_o - min_o + floatEpsilon)

/-- The `measured`/`scaled_objectives` computation of `IBEA._scale_objectives`:
for each objective, the minimum and maximum of its raw value over the current
population seed `IBEA._scale`.  Python `min`/`max` raise on an empty
population; the `getD 0` default stands for that unreachable value and no
theorem below relies on it. -/
def scaled_objectives (objectives : List Objective) (individuals : List Ind) :
    List Objective :=
  objectives.map (fun o =>
    let measured := individuals.map (fun ind => o ind.v)
    scaleFun o ((measured.min?).getD 0) ((measured.max?).getD 0))

/-- `IBEA.EPlusIndicator.__call__(x1, x2)`: the additive epsilon indicator
`max over scaled objectives of (objective(x1) - objective(x2))`.  Python
`max([])` raises `ValueError` when the scaled-objective list is empty, which
is modelled by `none`. -/
def EPlusIndicator (sobjs : List Objective) (x1 x2 : List ℚ) : Option ℚ :=
  (sobjs.map (fun objective => objective x1 - objective x2)).max?

/-- Total view of `EPlusIndicator`; the default is only reached with an empty
objective list, where the Python call raises. -/
def indicatorVal (sobjs : List Objective) (x1 x2 : List ℚ) : ℚ :=
  (EPlusIndicator sobjs x1 x2).getD 0

/-- The denominator `abs(self.c * self.k + sys.float_info.epsilon)` shared by
`IBEA._calculate_fitness` and the repair step of
`IBEA._environmental_selection`. -/
def expDenom (c kappa : ℚ) : ℚ := |c * kappa + floatEpsilon|

/-- The fitness formula of `IBEA._calculate_fitness` for one individual:
`sum((-1) * exp((-1) * (I(x2, x1) / abs(c * k + eps))) for x2 != x1)`.
Inequality of individuals is Python object identity, here equality of the
(tagged) `Ind` values. -/
def fitnessOf (expf : ℚ → ℚ) (kappa : ℚ) (indicators : Ind → Ind → ℚ) (c : ℚ)
    (pop : List Ind) (x1 : Ind) : ℚ :=
  ((pop.filter (fun x2 => decide (x2 ≠ x1))).map
    (fun x2 => -expf (-(indicators x2 x1) / expDenom c kappa))).sum

/-- The constant `self.c = max(abs(x) for x in self.indicators.values())` of
`IBEA._calculate_fitness`, over every ordered pair of the population.
`none` models the `ValueError` of `max([])` on an empty population. -/
def calc_c (sobjs : List Objective) (pop : List Ind) : Option ℚ :=
  ((pop.flatMap (fun x1 => pop.map (fun x2 =>
    |indicatorVal sobjs x1.v x2.v|))).max?)

/-- `IBEA._calculate_fitness`: builds the pairwise indicator table from the
current `scaled_objectives`, the normalisation constant `c`, and the fitness
map.  `none` models the `ValueError` raised by `max` on an empty sequence:
with an empty population the indicator dictionary is empty and
`max([])` raises; with a nonempty population but no objectives the first
`EPlusIndicator` call raises. -/
def calculate_fitness (expf : ℚ → ℚ) (kappa : ℚ) (sobjs : List Objective)
    (pop : List Ind) : Option ((Ind → Ind → ℚ) × ℚ × (Ind → ℚ)) :=
  if pop.isEmpty || sobjs.isEmpty then none
  else
    let indicators : Ind → Ind → ℚ := fun x1 x2 => indicatorVal sobjs x1.v x2.v
    let c : ℚ := (calc_c sobjs pop).getD 0
    some (indicators, c, fun x1 => fitnessOf expf kappa indicators c pop x1)

/-- Stable insertion of one element into a list already sorted by descending
fitness: the element is placed before the first member whose fitness is not
larger.  Together with `sortDesc` this reproduces the Python call
`sorted(self.individuals, key=lambda y: self.fitness[y], reverse=True)`
(Python sorting is stable; any stable descending sort yields the same list). -/
def insertDesc (fit : Ind → ℚ) (a : Ind) : List Ind → List Ind
  | [] => [a]
  | b :: t => if fit b ≤ fit a then a :: b :: t else b :: insertDesc fit a t

/-- Stable descending sort by fitness, modelling
`sorted(..., key=lambda y: self.fitness[y], reverse=True)`. -/
def sortDesc (fit : Ind → ℚ) : List Ind → List Ind
  | [] => []
  | a :: t => insertDesc fit a (sortDesc fit t)

/-- One iteration of the `while` loop of `IBEA._environmental_selection`:
sort descending by fitness, `pop()` the last (hence lowest-fitness) element,
then repair the cached fitness of every remaining individual by adding
`exp(-(I(removed, x)) / abs(c * k + eps))`.  The removed individual keeps its
stale dictionary entry, which the conditional mirrors.  `List.pop` on an empty
list would raise in Python; that case is unreachable under the loop guard and
returns the state unchanged with `none`. -/
def env_step (expf : ℚ → ℚ) (kappa : ℚ) (indicators : Ind → Ind → ℚ) (c : ℚ)
    (pop : List Ind) (fit : Ind → ℚ) : List Ind × (Ind → ℚ) × Option Ind :=
  let sorted_pop := sortDesc fit pop
  match sorted_pop.getLast? with
  | none => ([], fit, none)
  | some removed =>
      (sorted_pop.dropLast,
       fun x => if x = removed then fit x
                else fit x + expf (-(indicators removed x) / expDenom c kappa),
       some removed)

/-- The `while len(self.individuals) > self.population_size` loop of
`IBEA._environmental_selection`, written with explicit fuel.  Each iteration
removes exactly one individual, so `pop.length` rounds of fuel are always
sufficient (the size lemma below proves the loop reaches its fixed point). -/
def environmental_selection_loop (expf : ℚ → ℚ) (kappa : ℚ)
    (indicators : Ind → Ind → ℚ) (c : ℚ) (population_size : ℕ) :
    ℕ → List Ind → (Ind → ℚ) → List Ind × (Ind → ℚ)
  | 0, pop, fit => (pop, fit)
  | fuel + 1, pop, fit =>
    if population_size < pop.length then
      let st := env_step expf kappa indicators c pop fit
      environmental_selection_loop expf kappa indicators c population_size
        fuel st.1 st.2.1
    else (pop, fit)

/-- `IBEA._environmental_selection`: run the removal loop to its fixed point. -/
def environmental_selection (expf : ℚ → ℚ) (kappa : ℚ)
    (indicators : Ind → Ind → ℚ) (c : ℚ) (population_size : ℕ)
    (pop : List Ind) (fit : Ind → ℚ) : List Ind × (Ind → ℚ) :=
  environmental_selection_loop expf kappa indicators c population_size
    pop.length pop fit

/-- The tournament coin of `IBEA._mating_selection`:
`coin = lambda: random.random() < p`, with the uniform draw `r` supplied by
the external randomness source. -/
def coin (p r : ℚ) : Bool := decide (r < p)

/-- The `better` lambda of `IBEA._mating_selection`.  Both branches of the
Python conditional use the `cond and x1 or x2` idiom; individuals are always
truthy objects, so the idiom is an if-then-else.  With the coin true the
strictly lower-fitness pick wins (ties go to `x2`), otherwise the strictly
higher-fitness pick wins (ties again go to `x2`). -/
def better (fit : Ind → ℚ) (c : Bool) (x1 x2 : Ind) : Ind :=
  if c then (if fit x1 < fit x2 then x1 else x2)
  else (if fit x1 > fit x2 then x1 else x2)

/-- `IBEA._mating_selection(p)`: one `better` tournament per draw.  The two
`random.choice` picks and the `random.random()` float of each draw are
external randomness, modelled as the input list `draws`; `_next_step` performs
`2 * self.mating_size` such draws. -/
def mating_selection (fit : Ind → ℚ) (p : ℚ) (draws : List (ℚ × Ind × Ind)) :
    List Ind :=
  draws.map (fun d => better fit (coin p d.1) d.2.1 d.2.2)

/-- The probability constant with which `IBEA._next_step` invokes
`self._mating_selection(0.9)` (the float literal 0.9 modelled exactly). -/
def next_step_mating_p : ℚ := 9 / 10

/-- Membership test `ind.v in self.fitness_archive` guarded by
`self.fitness_archive is not None`; the optional archive is an association
list from vectors to cached objective values. -/
def archiveHasKey (archive : Option (List (List ℚ × List ℚ))) (v : List ℚ) :
    Bool :=
  match archive with
  | none => false
  | some entries => entries.any (fun e => decide (e.1 = v))

/-- Archive lookup `self.fitness_archive[ind.v]`. -/
def archiveLookup (archive : Option (List (List ℚ × List ℚ))) (v : List ℚ) :
    Option (List ℚ) :=
  match archive with
  | none => none
  | some entries => (entries.find? (fun e => decide (e.1 = v))).map (fun e => e.2)

/-- One pass of the first loop of `IBEA._scale_objectives`: the running cost
and the updated individual list.  The Python condition is literally
`if not ind.known_objectives or not ((self.fitness_archive is not None) and
(ind.v in self.fitness_archive)): self.cost += 1`, after which
`ind.known_objectives = True`. -/
def scale_objectives_cost_step (archive : Option (List (List ℚ × List ℚ)))
    (acc : ℕ × List Ind) (ind : Ind) : ℕ × List Ind :=
  (acc.1 + (if !ind.known_objectives || !archiveHasKey archive ind.v then 1 else 0),
   acc.2 ++ [{ ind with known_objectives := true }])

/-- The cost and flag side effect of `IBEA._scale_objectives` over the whole
population. -/
def scale_objectives_effect (archive : Option (List (List ℚ × List ℚ)))
    (pop : List Ind) : ℕ × List Ind :=
  pop.foldl (scale_objectives_cost_step archive) (0, [])

/-- `IBEA.calculate_objectives(ind)`: archive hit returns the cached vector at
unchanged cost; otherwise the objectives are recomputed and the cost counter
increments when the individual was not yet evaluated.  Note the source does
not set `known_objectives` here. -/
def calculate_objectives (objectives : List Objective)
    (archive : Option (List (List ℚ × List ℚ))) (cost : ℕ) (ind : Ind) :
    List ℚ × ℕ :=
  match archiveLookup archive ind.v with
  | some cached => (cached, cost)
  | none => (objectives.map (fun o => o ind.v),
             cost + if ind.known_objectives then 0 else 1)

/-- `IBEA.IBEAImgaProxy.assimilate_immigrants(emigrants)`:
`self.individuals.extend(emigrants)` appends the given individual objects
themselves to the live population. -/
def assimilate_immigrants (individuals emigrants : List Ind) : List Ind :=
  individuals ++ emigrants

/-- The scanning loop of `IBEA.IBEAImgaProxy.deport_emigrants`: walk the
population in order, matching each individual whose vector still occurs in the
remaining candidate multiset, consuming one candidate copy per match. -/
def deport_scan : List Ind → List (List ℚ) → List Ind
  | [], _ => []
  | p :: ps, cp =>
    if cp.contains p.v then p :: deport_scan ps (cp.erase p.v)
    else deport_scan ps cp

/-- The removal loop of `deport_emigrants`: `self.individuals.remove(p)` for
each matched individual (first occurrence, identity equality). -/
def removeMatched (individuals to_remove : List Ind) : List Ind :=
  to_remove.foldl (fun acc p => acc.erase p) individuals

/-- `IBEA.IBEAImgaProxy.deport_emigrants(immigrants)`: returns the matched
individuals (the very objects of the live population) and the reduced
population. -/
def deport_emigrants (individuals : List Ind) (immigrants : List (List ℚ)) :
    List Ind × List Ind :=
  let to_remove := deport_scan individuals immigrants
  (to_remove, removeMatched individuals to_remove)

end IBEA

namespace SMSEMOA

/-- The `Individual` class of `src/ep/smsemoa/smsemoa.py`: a solution vector
`value` and its `objectives` list (initially empty, filled by
`calculate_objectives`).  The `tag` field models Python object identity, which
the dictionaries of `nd_sort` key on. -/
structure SInd where
  tag : ℕ
  value : List ℚ
  objectives : List ℚ
deriving DecidableEq

/-- Modelled from the spec: `ep.utils.ea_utils.dominates` is imported by
`smsemoa.py` but its module is not under `src/`.  Spec section 4.2:
`dominates(a, b)` is true iff `a` is no worse than `b` in every objective
(assuming minimisation) and strictly better in at least one. -/
def dominates (a b : List ℚ) : Bool :=
  ((a.zip b).all (fun p => decide (p.1 ≤ p.2))) &&
  ((a.zip b).any (fun p => decide (p.1 < p.2)))

/-- The final value of `how_many_dominates[x]` after the double loop of
`SMSEMOA.nd_sort`: the number of population members whose objectives dominate
those of `x`.  The source compares this count with `is 0`, which for CPython
small integers coincides with equality to zero. -/
def how_many_dominates (pop : List SInd) (x : SInd) : ℕ :=
  (pop.filter (fun y => dominates y.objectives x.objectives)).length

/-- The `dominated_by[x]` set of `SMSEMOA.nd_sort` (members dominated by `x`),
kept in population order; the claims below depend only on membership, never on
the Python set iteration order. -/
def dominated_by (pop : List SInd) (x : SInd) : List SInd :=
  pop.filter (fun y => dominates x.objectives y.objectives)

/-- The inner decrement loop of `SMSEMOA.nd_sort`: for each individual
dominated by the current front member, decrement its domination count and
collect it for the next front when the count reaches zero. -/
def decrement_counts : List SInd → (SInd → ℤ) → List SInd × (SInd → ℤ)
  | [], counts => ([], counts)
  | y :: ys, counts =>
    let c := counts y - 1
    let counts1 : SInd → ℤ := fun z => if z = y then c else counts z
    let step := decrement_counts ys counts1
    ((if c = 0 then [y] else []) ++ step.1, step.2)

/-- Processing of one whole front inside the `while` loop of
`SMSEMOA.nd_sort`. -/
def process_front (domBy : SInd → List SInd) :
    List SInd → (SInd → ℤ) → List SInd × (SInd → ℤ)
  | [], counts => ([], counts)
  | x :: xs, counts =>
    let first := decrement_counts (domBy x) counts
    let rest := process_front domBy xs first.2
    (first.1 ++ rest.1, rest.2)

/-- The `while True` front-peeling loop of `SMSEMOA.nd_sort`, with explicit
fuel: it stops at the first empty front, and a population of `n` members has
at most `n` nonempty fronts, so fuel `n + 1` never runs out. -/
def nd_sort_loop (domBy : SInd → List SInd) :
    ℕ → List SInd → (SInd → ℤ) → List (List SInd)
  | 0, _, _ => []
  | fuel + 1, current, counts =>
    if current.isEmpty then []
    else
      let stepped := process_front domBy current counts
      current :: nd_sort_loop domBy fuel stepped.1 stepped.2

/-- `SMSEMOA.nd_sort(pop)`: front 1 collects the members with domination count
zero, in population order; successive fronts are peeled by decrementing
counts.  The result lists the nonempty fronts in order (front numbering in the
source starts at 1). -/
def nd_sort (pop : List SInd) : List (List SInd) :=
  nd_sort_loop (dominated_by pop) (pop.length + 1)
    (pop.filter (fun x => decide (how_many_dominates pop x = 0)))
    (fun x => (how_many_dominates pop x : ℤ))

/-- Indexing `front[i]` of the `collections.defaultdict(list)` returned by
`nd_sort`, with front numbers starting at 1: absent keys give the empty
list. -/
def front_get (fronts : List (List SInd)) (idx : ℕ) : List SInd :=
  if idx = 0 then [] else fronts.getD (idx - 1) []

/-- `SMSEMOA.reduce_population(pop)`, faithfully including its two defects.
The source takes `worst_front = sorted_pop[len(pop)]` (the front numbered by
the population size, not the last nonempty front) and then evaluates
`min((worst_front[i], hv_global - hv.compute(...)) for i in range(len(results)))`
and returns `min_contributor[0]`:

* an empty `worst_front` makes `min` raise `ValueError` (modelled `none`);
* with two or more members, Python orders the `(Individual, float)` tuples by
  comparing the `Individual` objects first, raising `TypeError` (modelled
  `none`); this branch also shows the leave-one-out hypervolume values never
  decide the result;
* with exactly one member, `min` returns the only tuple without comparing and
  the function returns that single individual, which the caller then assigns
  as the entire new population.

The external hypervolume primitive appears as the argument `hv`; the reference
point `[x[1] for x in self.dims]` is internal to that call and the result is
independent of `hv` in every branch. -/
def reduce_population (hv : List (List ℚ) → ℚ) (pop : List SInd) :
    Option SInd :=
  let sorted_pop := nd_sort pop
  let worst_front := front_get sorted_pop pop.length
  let results := worst_front.map (fun x => x.objectives)
  let _hv_global := hv results
  match worst_front with
  | [] => none
  | [x] => some x
  | _ => none

/-- `SMSEMOA.calculate_objectives(pop)`: (re)evaluates every objective on each
member and returns the cost `len(pop)`. -/
def calculate_objectives (fitnesses : List Objective) (pop : List SInd) :
    List SInd × ℕ :=
  (pop.map (fun p => { p with objectives := fitnesses.map (fun o => o p.value) }),
   pop.length)

/-- `SMSEMOA.generate(pop)`: `random.sample(pop, 2)` raises `ValueError` when
the population has fewer than two members (modelled `none`); otherwise the
external crossover and mutation operators produce one fresh offspring
individual with empty objectives.  The sampling itself is external randomness
(an oracle `pick`), and `fresh` models the identity of the newly constructed
Python object. -/
def generate (crossover : List ℚ → List ℚ → List ℚ) (mutate : List ℚ → List ℚ)
    (pick : List SInd → SInd × SInd) (fresh : ℕ) (pop : List SInd) :
    Option SInd :=
  if pop.length < 2 then none
  else
    let parents := pick pop
    some ⟨fresh, mutate (crossover parents.1.value parents.2.value), []⟩

/-- The state of one `SMSEMOA` driver instance: the private `__population`
list and the `epoch_length` computed at construction. -/
structure SMSState where
  population : List SInd
  epoch_length : ℕ
deriving DecidableEq

/-- The `population` property getter: `[x.value for x in self.__population]`. -/
def population_values (s : SMSState) : List (List ℚ) :=
  s.population.map (fun x => x.value)

/-- `SMSEMOA.finish()`: `return self.population` reads the property and
performs no terminal selection, evaluation, or mutation; in state-passing form
the state component is returned untouched. -/
def finish (s : SMSState) : List (List ℚ) × SMSState :=
  (population_values s, s)

end SMSEMOA

/-!
Concrete inputs used to evaluate the embedded code.  The IBEA instance below
runs one objective `f(v) = v[0]` on the three individuals with vectors `[0]`,
`[1]`, `[2]` and `kappa = 0.05` (the value used by the commented-out driver in
the source); the SMS-EMOA inputs are a mutually nondominated triple, a totally
ordered chain, and a mutually nondominated quadruple.
-/

/-- Single objective `f(v) = v[0]` for the concrete IBEA run. -/
def cexObjs : List Objective := [fun val => val.headD 0]

/-- First concrete IBEA individual, vector `[0]`. -/
def cexInd0 : IBEA.Ind := ⟨0, [0], true⟩

/-- Second concrete IBEA individual, vector `[1]`. -/
def cexInd1 : IBEA.Ind := ⟨1, [1], true⟩

/-- Third concrete IBEA individual, vector `[2]`. -/
def cexInd2 : IBEA.Ind := ⟨2, [2], true⟩

/-- The concrete three-member IBEA population. -/
def cexPop : List IBEA.Ind := [cexInd0, cexInd1, cexInd2]

/-- Concrete `kappa = 0.05`. -/
def cexKappa : ℚ := 1 / 20

/-- Scaled objectives of the concrete population (computed by
`_scale_objectives` before fitness calculation and unchanged during
environmental selection). -/
def cexSobjs : List Objective := IBEA.scaled_objectives cexObjs cexPop

/-- Indicator table, normalisation constant `c` and fitness map produced by
`_calculate_fitness` on the concrete population (the population and objective
list are nonempty, so the `getD` default is not used). -/
def cexData : (IBEA.Ind → IBEA.Ind → ℚ) × ℚ × (IBEA.Ind → ℚ) :=
  (IBEA.calculate_fitness expQ cexKappa cexSobjs cexPop).getD
    (fun _ _ => 0, 0, fun _ => 0)

/-- One environmental-selection removal on the concrete population, including
the incremental fitness repair performed by the source. -/
def cexStep : List IBEA.Ind × (IBEA.Ind → ℚ) × Option IBEA.Ind :=
  IBEA.env_step expQ cexKappa cexData.1 cexData.2.1 cexPop cexData.2.2

/-- Full fitness recomputation over the reduced population, including the
recomputation of the normalisation constant `c` from the remaining pairs (the
reading of the claim under test). -/
def cexRecomputed : IBEA.Ind → ℚ :=
  ((IBEA.calculate_fitness expQ cexKappa cexSobjs cexStep.1).getD
    (fun _ _ => 0, 0, fun _ => 0)).2.2

/-- Three mutually nondominated SMS-EMOA individuals: the nondominated sort
puts all of them in front 1, which is also the last nonempty front. -/
def antichainPop : List SMSEMOA.SInd :=
  [⟨0, [1], [0, 2]⟩, ⟨1, [2], [1, 1]⟩, ⟨2, [3], [2, 0]⟩]

/-- A totally ordered chain of three SMS-EMOA individuals: every front of the
nondominated sort is a singleton, so front number `len(pop)` is nonempty. -/
def chainPop : List SMSEMOA.SInd :=
  [⟨0, [0], [0, 0]⟩, ⟨1, [1], [1, 1]⟩, ⟨2, [2], [2, 2]⟩]

/-- The single member of the worst front of `chainPop` (the most dominated
individual). -/
def chainWorst : SMSEMOA.SInd := ⟨2, [2], [2, 2]⟩

/-- Four mutually nondominated SMS-EMOA individuals: the last nonempty front
(front 1) has four members, the situation in which the design prescribes a
leave-one-out hypervolume comparison. -/
def antichain4 : List SMSEMOA.SInd :=
  [⟨0, [0], [0, 3]⟩, ⟨1, [1], [1, 2]⟩, ⟨2, [2], [2, 1]⟩, ⟨3, [3], [3, 0]⟩]

namespace IBEA

/-! Helper lemmas about the stable descending sort and one environmental
selection step. -/

theorem insertDesc_perm (fit : Ind → ℚ) (a : Ind) :
    ∀ l : List Ind, (insertDesc fit a l).Perm (a :: l)
  | [] => List.Perm.refl _
  | b :: t => by
    unfold insertDesc
    by_cases h : fit b ≤ fit a
    · simp only [if_pos h]
      exact List.Perm.refl _
    · simp only [if_neg h]
      exact ((insertDesc_perm fit a t).cons b).trans (List.Perm.swap a b t)

theorem sortDesc_perm (fit : Ind → ℚ) :
    ∀ l : List Ind, (sortDesc fit l).Perm l
  | [] => List.Perm.refl _
  | a :: t =>
    (insertDesc_perm fit a (sortDesc fit t)).trans ((sortDesc_perm fit t).cons a)

theorem sortDesc_length (fit : Ind → ℚ) (l : List Ind) :
    (sortDesc fit l).length = l.length :=
  (sortDesc_perm fit l).length_eq

theorem sortDesc_ne_nil (fit : Ind → ℚ) {l : List Ind} (h : l ≠ []) :
    sortDesc fit l ≠ [] := by
  intro hcon
  apply h
  have hlen := sortDesc_length fit l
  rw [hcon] at hlen
  exact List.length_eq_zero.mp hlen.symm

theorem insertDesc_sorted (fit : Ind → ℚ) (a : Ind) :
    ∀ {l : List Ind}, l.Pairwise (fun x y => fit y ≤ fit x) →
      (insertDesc fit a l).Pairwise (fun x y => fit y ≤ fit x)
  | [], _ => by simp [insertDesc]
  | b :: t, hp => by
    rcases List.pairwise_cons.mp hp with ⟨hb, ht⟩
    unfold insertDesc
    by_cases h : fit b ≤ fit a
    · simp only [if_pos h]
      refine List.pairwise_cons.mpr ⟨?_, hp⟩
      intro z hz
      rcases List.mem_cons.mp hz with hz | hz
      · exact hz ▸ h
      · exact le_trans (hb z hz) h
    · simp only [if_neg h]
      refine List.pairwise_cons.mpr ⟨?_, insertDesc_sorted fit a ht⟩
      intro z hz
      rcases (insertDesc_perm fit a t).mem_iff.mp hz with hz2
      rcases List.mem_cons.mp hz2 with hz3 | hz3
      · exact hz3 ▸ le_of_lt (lt_of_not_le h)
      · exact hb z hz3

theorem sortDesc_sorted (fit : Ind → ℚ) :
    ∀ l : List Ind, (sortDesc fit l).Pairwise (fun x y => fit y ≤ fit x)
  | [] => List.Pairwise.nil
  | a :: t => insertDesc_sorted fit a (sortDesc_sorted fit t)

theorem env_step_spec (expf : ℚ → ℚ) (kappa : ℚ) (indicators : Ind → Ind → ℚ)
    (c : ℚ) (pop : List Ind) (fit : Ind → ℚ) (h : pop ≠ []) :
    ∃ rem,
      sortDesc fit pop = (env_step expf kappa indicators c pop fit).1 ++ [rem] ∧
      (env_step expf kappa indicators c pop fit).2.2 = some rem ∧
      (env_step expf kappa indicators c pop fit).2.1 =
        (fun x => if x = rem then fit x
                  else fit x + expf (-(indicators rem x) / expDenom c kappa)) := by
  have hsne : sortDesc fit pop ≠ [] := sortDesc_ne_nil fit h
  have hlast : (sortDesc fit pop).getLast? =
      some ((sortDesc fit pop).getLast hsne) :=
    List.getLast?_eq_getLast _ hsne
  refine ⟨(sortDesc fit pop).getLast hsne, ?_, ?_, ?_⟩ <;>
    simp only [env_step, hlast]
  exact (List.dropLast_append_getLast hsne).symm

theorem env_step_length (expf : ℚ → ℚ) (kappa : ℚ) (indicators : Ind → Ind → ℚ)
    (c : ℚ) (pop : List Ind) (fit : Ind → ℚ) (h : pop ≠ []) :
    (env_step expf kappa indicators c pop fit).1.length = pop.length - 1 := by
  obtain ⟨rem, hsplit, -, -⟩ := env_step_spec expf kappa indicators c pop fit h
  have := congrArg List.length hsplit
  rw [List.length_append, sortDesc_length] at this
  simp at this
  omega

theorem env_step_removed_min (expf : ℚ → ℚ) (kappa : ℚ)
    (indicators : Ind → Ind → ℚ) (c : ℚ) (pop : List Ind) (fit : Ind → ℚ)
    (h : pop ≠ []) :
    ∃ rem, (env_step expf kappa indicators c pop fit).2.2 = some rem ∧
      rem ∈ pop ∧
      ∀ x ∈ (env_step expf kappa indicators c pop fit).1, fit rem ≤ fit x := by
  obtain ⟨rem, hsplit, hremeq, -⟩ :=
    env_step_spec expf kappa indicators c pop fit h
  have hsorted := sortDesc_sorted fit pop
  rw [hsplit] at hsorted
  rcases List.pairwise_append.mp hsorted with ⟨-, -, hcross⟩
  refine ⟨rem, hremeq, ?_, ?_⟩
  · have : rem ∈ sortDesc fit pop := by
      rw [hsplit]
      exact List.mem_append_right _ (List.mem_singleton.mpr rfl)
    exact (sortDesc_perm fit pop).subset this
  · intro x hx
    exact hcross x hx rem (List.mem_singleton.mpr rfl)

theorem environmental_selection_loop_length (expf : ℚ → ℚ) (kappa : ℚ)
    (indicators : Ind → Ind → ℚ) (c : ℚ) (ps : ℕ) :
    ∀ (fuel : ℕ) (pop : List Ind) (fit : Ind → ℚ),
      pop.length - ps ≤ fuel → ps ≤ pop.length →
      ((environmental_selection_loop expf kappa indicators c ps fuel pop fit).1).length
        = ps
  | 0, pop, fit, hfuel, hps => by
    simp only [environmental_selection_loop]
    show pop.length = ps
    omega
  | fuel + 1, pop, fit, hfuel, hps => by
    simp only [environmental_selection_loop]
    by_cases hlt : ps < pop.length
    · simp only [if_pos hlt]
      have hne : pop ≠ [] := by
        intro hcon
        rw [hcon] at hlt
        simp at hlt
      have hlen := env_step_length expf kappa indicators c pop fit hne
      exact environmental_selection_loop_length expf kappa indicators c ps fuel
        _ _ (by omega) (by omega)
    · simp only [if_neg hlt]
      show pop.length = ps
      omega

end IBEA

namespace IBEA

/-- Claim C1 (amended): for every IBEA population with distinct individuals
and any exponential primitive, indicator table, normalisation constant `c` and
scaling constant `kappa`, the incremental fitness repair performed by one
environmental-selection removal reproduces exactly the full fitness
recomputation over the reduced population that keeps the pre-removal
normalisation constant `c` and the cached indicator values.  The claim as
stated, where the full recomputation recomputes `c` from the reduced
population, is refuted by the counterexample below. -/
theorem incremental_repair_matches_recompute_with_pre_removal_c
    (expf : ℚ → ℚ) (kappa : ℚ) (indicators : Ind → Ind → ℚ) (c : ℚ)
    (pop : List Ind) (hnd : pop.Nodup) :
    ∀ x ∈ (env_step expf kappa indicators c pop
        (fitnessOf expf kappa indicators c pop)).1,
      (env_step expf kappa indicators c pop
        (fitnessOf expf kappa indicators c pop)).2.1 x =
      fitnessOf expf kappa indicators c
        (env_step expf kappa indicators c pop
          (fitnessOf expf kappa indicators c pop)).1 x := by
  intro x hx
  by_cases hpop : pop = []
  · subst hpop
    simp [env_step, sortDesc] at hx
  · obtain ⟨rem, hsplit, -, hfun⟩ := env_step_spec expf kappa indicators c pop
      (fitnessOf expf kappa indicators c pop) hpop
    have hperm : (sortDesc (fitnessOf expf kappa indicators c pop) pop).Perm pop :=
      sortDesc_perm _ pop
    have hnods := hperm.symm.nodup hnd
    rw [hsplit] at hnods
    have hdisj := List.disjoint_of_nodup_append hnods
    have hxr : x ≠ rem := by
      intro hcon
      exact hdisj hx (by simp [hcon])
    have hremq : decide (rem ≠ x) = true := decide_eq_true (Ne.symm hxr)
    have hfilter : (pop.filter (fun x2 => decide (x2 ≠ x))).Perm
        (((env_step expf kappa indicators c pop
            (fitnessOf expf kappa indicators c pop)).1 ++ [rem]).filter
          (fun x2 => decide (x2 ≠ x))) := by
      rw [← hsplit]
      exact hperm.symm.filter _
    have hsum : fitnessOf expf kappa indicators c pop x =
        fitnessOf expf kappa indicators c
          (env_step expf kappa indicators c pop
            (fitnessOf expf kappa indicators c pop)).1 x +
        -expf (-(indicators rem x) / expDenom c kappa) := by
      show ((pop.filter (fun x2 => decide (x2 ≠ x))).map
          (fun x2 => -expf (-(indicators x2 x) / expDenom c kappa))).sum = _
      rw [(hfilter.map _).sum_eq, List.filter_append]
      have hsing : List.filter (fun x2 => decide (x2 ≠ x)) [rem] = [rem] := by
        simp [List.filter_cons, Ne.symm hxr]
      rw [hsing, List.map_append, List.sum_append]
      simp [fitnessOf]
    rw [hfun]
    simp only [if_neg hxr]
    rw [hsum]
    ring

/-- Witness for claim C1 (amended): the repair identity evaluated on the
concrete two-member population. -/
theorem incremental_repair_matches_recompute_with_pre_removal_c_witness :
    ([cexInd0, cexInd1] : List Ind).Nodup ∧
    ∀ x ∈ (env_step expQ cexKappa (fun _ _ => 0) 0 [cexInd0, cexInd1]
        (fitnessOf expQ cexKappa (fun _ _ => 0) 0 [cexInd0, cexInd1])).1,
      (env_step expQ cexKappa (fun _ _ => 0) 0 [cexInd0, cexInd1]
        (fitnessOf expQ cexKappa (fun _ _ => 0) 0 [cexInd0, cexInd1])).2.1 x =
      fitnessOf expQ cexKappa (fun _ _ => 0) 0
        (env_step expQ cexKappa (fun _ _ => 0) 0 [cexInd0, cexInd1]
          (fitnessOf expQ cexKappa (fun _ _ => 0) 0 [cexInd0, cexInd1])).1 x :=
  ⟨by decide,
   incremental_repair_matches_recompute_with_pre_removal_c expQ cexKappa
     (fun _ _ => 0) 0 [cexInd0, cexInd1] (by decide)⟩

set_option maxRecDepth 100000 in
/-- Counterexample to claim C1 as stated: on the concrete three-member
population the environmental-selection step removes `cexInd2` (the lowest
fitness), and the incrementally repaired fitness of `cexInd0` differs from the
value a full recomputation over the reduced population yields when the
normalisation constant `c` is recomputed there: the removal shrinks
`max |I(x, y)|` from about 1 to about one half, changing the exponent scale
far beyond floating tolerance. -/
theorem incremental_repair_full_recompute_counterexample :
    cexStep.2.2 = some cexInd2 ∧ cexStep.1 = [cexInd0, cexInd1] ∧
    cexStep.2.1 cexInd0 ≠ cexRecomputed cexInd0 := by
  with_unfolding_all decide

end IBEA

namespace IBEA

/-- Claim C5: whenever the population entering environmental selection has at
least `population_size` members, the selection loop terminates with exactly
`population_size` members; moreover every single removal takes an individual
of minimal current fitness out of the current population (lowest-fitness
first, one at a time). -/
theorem environmental_selection_reaches_population_size
    (expf : ℚ → ℚ) (kappa : ℚ) (indicators : Ind → Ind → ℚ) (c : ℚ)
    (population_size : ℕ) (pop : List Ind) (fit : Ind → ℚ)
    (hps : population_size ≤ pop.length)
    (pop2 : List Ind) (fit2 : Ind → ℚ) (h2 : pop2 ≠ []) :
    (environmental_selection expf kappa indicators c population_size pop fit).1.length
      = population_size ∧
    ∃ rem, (env_step expf kappa indicators c pop2 fit2).2.2 = some rem ∧
      rem ∈ pop2 ∧
      ∀ x ∈ (env_step expf kappa indicators c pop2 fit2).1, fit2 rem ≤ fit2 x :=
  ⟨environmental_selection_loop_length expf kappa indicators c population_size
      pop.length pop fit (by omega) hps,
   env_step_removed_min expf kappa indicators c pop2 fit2 h2⟩

/-- Witness for claim C5: a three-member population reduced to the configured
size one, and a removal step on a concrete two-member population. -/
theorem environmental_selection_reaches_population_size_witness :
    1 ≤ cexPop.length ∧ ([cexInd0, cexInd1] : List Ind) ≠ [] ∧
    ((environmental_selection expQ cexKappa (fun _ _ => 0) 0 1 cexPop
        (fun _ => 0)).1.length = 1 ∧
      ∃ rem, (env_step expQ cexKappa (fun _ _ => 0) 0 [cexInd0, cexInd1]
          (fun _ => 0)).2.2 = some rem ∧
        rem ∈ ([cexInd0, cexInd1] : List Ind) ∧
        ∀ x ∈ (env_step expQ cexKappa (fun _ _ => 0) 0 [cexInd0, cexInd1]
            (fun _ => 0)).1, (fun _ => (0 : ℚ)) rem ≤ (fun _ => (0 : ℚ)) x) :=
  ⟨by decide, by decide,
   environmental_selection_reaches_population_size expQ cexKappa (fun _ _ => 0)
     0 1 cexPop (fun _ => 0) (by decide) [cexInd0, cexInd1] (fun _ => 0)
     (by decide)⟩

/-- Claim C6: every entry of the mating-selection output is one binary
tournament, the number of tournaments equals the number of draws
(`2 * mating_size` in `_next_step`), the probability constant passed by
`_next_step` is 0.9, and each tournament returns the strictly lower-fitness
pick exactly when the uniform draw `r` falls below `p` (the inverted
asymmetry), otherwise the strictly higher-fitness pick. -/
theorem mating_selection_inverted_tournament
    (fit : Ind → ℚ) (p r : ℚ) (x1 x2 : Ind) (mating_size : ℕ)
    (draws : List (ℚ × Ind × Ind)) (hlen : draws.length = 2 * mating_size)
    (hne : fit x1 ≠ fit x2) :
    (mating_selection fit p draws).length = 2 * mating_size ∧
    next_step_mating_p = 9 / 10 ∧
    fit (better fit (coin p r) x1 x2) =
      (if r < p then min (fit x1) (fit x2) else max (fit x1) (fit x2)) := by
  refine ⟨by simp [mating_selection, hlen], rfl, ?_⟩
  unfold better coin
  by_cases hr : r < p
  · simp only [decide_eq_true hr, if_true, if_pos hr]
    by_cases hlt : fit x1 < fit x2
    · simp [if_pos hlt, min_eq_left (le_of_lt hlt)]
    · have hgt : fit x2 < fit x1 :=
        lt_of_le_of_ne (le_of_not_lt hlt) (Ne.symm hne)
      simp [if_neg hlt, min_eq_right (le_of_lt hgt)]
  · simp only [decide_eq_false hr, if_false, if_neg hr]
    by_cases hgt : fit x1 > fit x2
    · simp [if_pos hgt, max_eq_left (le_of_lt hgt)]
    · have hlt2 : fit x1 < fit x2 :=
        lt_of_le_of_ne (le_of_not_lt hgt) hne
      simp [if_neg hgt, max_eq_right (le_of_lt hlt2)]

/-- Witness for claim C6: two draws (one mating pair), a draw below 0.9 and
two individuals of distinct fitness. -/
theorem mating_selection_inverted_tournament_witness :
    ([((1 : ℚ) / 2, cexInd0, cexInd1), (0, cexInd1, cexInd0)] :
        List (ℚ × Ind × Ind)).length = 2 * 1 ∧
    (fun i : Ind => (i.tag : ℚ)) cexInd0 ≠ (fun i : Ind => (i.tag : ℚ)) cexInd1 ∧
    ((mating_selection (fun i : Ind => (i.tag : ℚ)) (9 / 10)
        [((1 : ℚ) / 2, cexInd0, cexInd1), (0, cexInd1, cexInd0)]).length = 2 * 1 ∧
      next_step_mating_p = 9 / 10 ∧
      (fun i : Ind => (i.tag : ℚ))
          (better (fun i : Ind => (i.tag : ℚ)) (coin (9 / 10) (1 / 2)) cexInd0 cexInd1) =
        (if (1 : ℚ) / 2 < 9 / 10 then
          min ((fun i : Ind => (i.tag : ℚ)) cexInd0) ((fun i : Ind => (i.tag : ℚ)) cexInd1)
        else
          max ((fun i : Ind => (i.tag : ℚ)) cexInd0) ((fun i : Ind => (i.tag : ℚ)) cexInd1))) :=
  ⟨by decide, by with_unfolding_all decide,
   mating_selection_inverted_tournament (fun i : Ind => (i.tag : ℚ)) (9 / 10)
     (1 / 2) cexInd0 cexInd1 1
     [((1 : ℚ) / 2, cexInd0, cexInd1), (0, cexInd1, cexInd0)] (by decide)
     (by with_unfolding_all decide)⟩

end IBEA

namespace IBEA

theorem list_max?_const_zero :
    ∀ (l : List ℚ), (∀ b ∈ l, b = 0) → l ≠ [] → l.max? = some 0
  | [], _, hne => absurd rfl hne
  | [a], hall, _ => by
    have ha : a = 0 := hall a (List.mem_singleton.mpr rfl)
    simp [List.max?_cons, List.max?_nil, ha]
  | a :: b :: t, hall, _ => by
    have ha : a = 0 := hall a (List.mem_cons_self a (b :: t))
    have hrest := list_max?_const_zero (b :: t)
      (fun z hz => hall z (List.mem_cons_of_mem a hz)) (List.cons_ne_nil b t)
    rw [List.max?_cons, hrest]
    simp [ha]

/-- Claim C7 (amended): for every individual vector and every nonempty scaled
objective list, the epsilon-plus indicator of an individual against itself is
exactly zero.  With an empty objective list the Python call raises instead of
returning zero, which refutes the unrestricted claim (counterexample below). -/
theorem eplus_indicator_self_zero (sobjs : List Objective) (h : sobjs ≠ [])
    (x : List ℚ) : EPlusIndicator sobjs x x = some 0 := by
  have hall : ∀ b ∈ sobjs.map (fun objective => objective x - objective x),
      b = 0 := by
    intro b hb
    rcases List.mem_map.mp hb with ⟨o, -, rfl⟩
    exact sub_self _
  have hne2 : sobjs.map (fun objective => objective x - objective x) ≠ [] := by
    intro hcon
    exact h (List.map_eq_nil_iff.mp hcon)
  exact list_max?_const_zero _ hall hne2

/-- Witness for claim C7: the indicator of the vector `[5]` against itself
under the single objective `f(v) = v[0]`. -/
theorem eplus_indicator_self_zero_witness :
    ([fun val => val.headD 0] : List Objective) ≠ [] ∧
    EPlusIndicator [fun val => val.headD 0] [5] [5] = some 0 :=
  ⟨List.cons_ne_nil _ _,
   eplus_indicator_self_zero [fun val => val.headD 0]
     (List.cons_ne_nil _ _) [5]⟩

/-- Counterexample to claim C7 as stated for an arbitrary objective set: with
zero objectives the indicator call evaluates `max([])`, which raises in Python
(`none` here) instead of returning zero. -/
theorem eplus_indicator_empty_objectives_counterexample :
    EPlusIndicator ([] : List Objective) [0] [0] ≠ some 0 := by
  simp [EPlusIndicator]

/-- Claim C4 is refuted by the code: the boolean condition of
`_scale_objectives` is `not known or not (archive hit)`, so an individual that
is already evaluated still increments the cost counter whenever no archive
entry matches (first conjunct: one already-evaluated individual, no archive,
cost 1 instead of the claimed 0).  Moreover `calculate_objectives` never sets
`known_objectives`, so two successive calls on the same unevaluated individual
increment the counter twice instead of exactly once per distinct vector
(second conjunct). -/
theorem cost_counter_code_bug :
    (scale_objectives_effect none [⟨0, [0], true⟩]).1 = 1 ∧
    (calculate_objectives [fun val => val.headD 0] none
        (calculate_objectives [fun val => val.headD 0] none 0 ⟨1, [7], false⟩).2
        ⟨1, [7], false⟩).2 = 2 :=
  ⟨rfl, rfl⟩

end IBEA

/-- Claim C2 is refuted by the code.  First conjunct: on the nondominated
triple (a size-2 population after one insertion) the worst-front lookup
`sorted_pop[len(pop)]` hits the empty front number 3, and `min` over the empty
candidate sequence raises `ValueError`, so no individual is inserted-and-
removed and no size-n population results.  Second conjunct: on the totally
ordered chain, front number 3 is the singleton worst front, and
`reduce_population` returns that worst individual itself, which the caller
`steps` then assigns as the entire new population, collapsing the population
to a single member instead of keeping size n.  Both outcomes are independent
of the external hypervolume primitive. -/
theorem reduce_population_step_size_code_bug :
    (∀ hv, SMSEMOA.reduce_population hv antichainPop = none) ∧
    (∀ hv, SMSEMOA.reduce_population hv chainPop = some chainWorst) :=
  ⟨fun _ => rfl, fun _ => rfl⟩

/-- Claim C3 is refuted by the code.  On the nondominated quadruple the last
nonempty front (front 1) has four members, so the design prescribes removing
the member whose exclusion maximises the remaining hypervolume; the code
instead looks up front number `len(pop) = 4`, which is empty (front numbers
`len(pop)` and beyond are nonempty only when every front is a singleton), and
`min` over the empty sequence raises `ValueError` for every choice of the
hypervolume primitive.  The leave-one-out comparison can therefore never run:
whenever the code reaches it the candidate front is a singleton, and with two
or more candidates Python would compare `(Individual, float)` tuples and raise
`TypeError`. -/
theorem reduce_population_hypervolume_choice_code_bug :
    ∀ hv, SMSEMOA.reduce_population hv antichain4 = none :=
  fun _ => rfl

/-- Claim C10: `SMSEMOA.finish` returns exactly the value vectors of the
current population in stored order and returns the driver state unchanged (no
terminal selection cycle, no objective evaluation, no cost change). -/
theorem finish_returns_values_and_preserves_state (s : SMSEMOA.SMSState) :
    (SMSEMOA.finish s).1 = s.population.map (fun x => x.value) ∧
    (SMSEMOA.finish s).2 = s ∧
    (SMSEMOA.finish s).2.population.map (fun x => x.objectives)
      = s.population.map (fun x => x.objectives) :=
  ⟨rfl, rfl, rfl⟩

/-- Counterexample to claim C8 as stated: generating one offspring from a
single-member population does not complete with a degenerate numeric result;
`random.sample(pop, 2)` raises `ValueError` (modelled `none`). -/
theorem generate_singleton_population_raises_counterexample :
    SMSEMOA.generate (fun a _ => a) (fun a => a)
      (fun _ => (⟨0, [], []⟩, ⟨0, [], []⟩)) 7 [⟨0, [1], []⟩] = none :=
  rfl

/-- Claim C8 (amended): malformed configurations are indeed not validated, but
they do not uniformly propagate as degenerate numeric results: SMS-EMOA parent
sampling raises on a population smaller than two, and IBEA fitness calculation
raises on an empty population and on an empty objective list (`max` of an
empty sequence); environmental selection of an empty population, in contrast,
is a genuine no-op. -/
theorem degenerate_configuration_behaviour
    (crossover : List ℚ → List ℚ → List ℚ) (mutate : List ℚ → List ℚ)
    (pick : List SMSEMOA.SInd → SMSEMOA.SInd × SMSEMOA.SInd) (fresh : ℕ)
    (pop : List SMSEMOA.SInd) (hlt : pop.length < 2)
    (expf : ℚ → ℚ) (kappa : ℚ) (sobjs : List Objective)
    (pop2 : List IBEA.Ind) (indicators : IBEA.Ind → IBEA.Ind → ℚ) (c : ℚ)
    (population_size : ℕ) (fit : IBEA.Ind → ℚ) :
    SMSEMOA.generate crossover mutate pick fresh pop = none ∧
    IBEA.calculate_fitness expf kappa sobjs [] = none ∧
    IBEA.calculate_fitness expf kappa [] pop2 = none ∧
    IBEA.environmental_selection expf kappa indicators c population_size [] fit
      = ([], fit) := by
  refine ⟨?_, rfl, ?_, rfl⟩
  · simp [SMSEMOA.generate, hlt]
  · simp [IBEA.calculate_fitness]

/-- Witness for claim C8 (amended), evaluated on a singleton SMS-EMOA
population and empty IBEA inputs. -/
theorem degenerate_configuration_behaviour_witness :
    ([⟨0, [1], []⟩] : List SMSEMOA.SInd).length < 2 ∧
    (SMSEMOA.generate (fun a _ => a) (fun a => a)
        (fun _ => (⟨1, [], []⟩, ⟨1, [], []⟩)) 3 [⟨0, [1], []⟩] = none ∧
      IBEA.calculate_fitness expQ cexKappa [] [] = none ∧
      IBEA.calculate_fitness expQ cexKappa [] [] = none ∧
      IBEA.environmental_selection expQ cexKappa (fun _ _ => 0) 0 0 []
        (fun _ => 0) = ([], fun _ => 0)) :=
  ⟨by decide,
   degenerate_configuration_behaviour (fun a _ => a) (fun a => a)
     (fun _ => (⟨1, [], []⟩, ⟨1, [], []⟩)) 3 [⟨0, [1], []⟩] (by decide)
     expQ cexKappa [] [] (fun _ _ => 0) 0 0 (fun _ => 0)⟩

namespace IBEA

theorem deport_scan_subset : ∀ (ps : List Ind) (cp : List (List ℚ)),
    ∀ d ∈ deport_scan ps cp, d ∈ ps
  | [], _, _, hd => by simp [deport_scan] at hd
  | p :: ps, cp, d, hd => by
    unfold deport_scan at hd
    by_cases hc : cp.contains p.v
    · rw [if_pos hc] at hd
      rcases List.mem_cons.mp hd with hd | hd
      · exact hd ▸ List.mem_cons_self p ps
      · exact List.mem_cons_of_mem p (deport_scan_subset ps _ d hd)
    · rw [if_neg hc] at hd
      exact List.mem_cons_of_mem p (deport_scan_subset ps cp d hd)

/-- Claim C9 (amended): `assimilate_immigrants` appends the given individual
objects themselves, unchanged, to the live population (no fresh `Individual`
construction, no resetting of the evaluation flag), and the individuals that
`deport_emigrants` hands over are the very member objects of the population,
so the migration pair exchanges `Individual` objects rather than freshly
wrapped vector copies.  The claim as stated (new unevaluated wrappers, no
object sharing) is refuted by the counterexample below. -/
theorem assimilate_immigrants_appends_given_objects
    (individuals emigrants : List Ind) (immigrants : List (List ℚ)) :
    assimilate_immigrants individuals emigrants = individuals ++ emigrants ∧
    ∀ d ∈ (deport_emigrants individuals immigrants).1, d ∈ individuals :=
  ⟨rfl, deport_scan_subset individuals immigrants⟩

/-- Counterexample to claim C9 as stated: assimilating one already-evaluated
individual leaves its evaluation flag set, so the appended population member
is not a newly constructed unevaluated wrapper of the vector. -/
theorem assimilate_immigrants_marked_unevaluated_counterexample :
    ¬ (∀ ind2 ∈ assimilate_immigrants [] [⟨5, [1], true⟩],
        ind2.known_objectives = false) := by
  decide

end IBEA
